/-
Verification of the cunqa distributed-QPU execution platform core.

Shallow embedding of the classical channel (router/dealer demultiplexing),
the QuantumTask transport/rewrite pipeline, the CC backend execute path,
the executor fan-in/fan-out round, the QPU compute-thread error handling,
the AER hex-to-binary counts adapter and the registry key-removal routine,
together with theorems settling the specification claims about them.
-/
import Mathlib

namespace cunqa

/-! ## Classical channel (`ClassicalChannel::Impl` in `simple_backend.hpp`)

The channel state consists of the bound endpoint string, the channel
identity (`zmq_id`), the map of dealer sockets (keyed by peer id, each
recording the ZMTP identity it was created with), the per-origin FIFO
buffer (`message_queue`), and the finite sequence of two-frame
`[identity, payload]` messages still pending on the router socket,
in arrival order. -/

structure ChannelState where
  zmq_endpoint : String
  zmq_id : String
  sockets : List (String × String)
  buffer : String → List String
  stream : List (String × String)

/-- Pointwise update of a per-origin buffer map, modelling
`message_queue[k] = v` on the `unordered_map`. -/
def setBuf (f : String → List String) (k : String) (v : List String) :
    String → List String :=
  fun x => if x = k then v else f x

/-- Lookup in an association list, modelling `unordered_map::find` /
JSON-object key access. Returns the value of the first matching key. -/
def getVal {α : Type} : List (String × α) → String → Option α
  | [], _ => none
  | (k, v) :: rest, key => if k = key then some v else getVal rest key

/-- The inner `while (true)` loop of `ClassicalChannel::Impl::recv`
(`simple_backend.hpp`, lines 256-271): read two-frame messages from the
router; a frame whose identity equals `origin` is returned together with
the updated buffer and the remaining pending frames; any other frame's
payload is pushed onto that identity's buffer. `none` models blocking
forever because no pending frame has the awaited identity. -/
def recvLoop (origin : String) :
    List (String × String) → (String → List String) →
    Option (String × (String → List String) × List (String × String))
  | [], _ => none
  | (i, p) :: rest, buf =>
    if i = origin then some (p, buf, rest)
    else recvLoop origin rest (setBuf buf i (buf i ++ [p]))

/-- `ClassicalChannel::Impl::recv` (`simple_backend.hpp`, lines 249-273):
if `message_queue[origin]` is non-empty, pop and return its front;
otherwise run the router read loop. -/
def recv (origin : String) (st : ChannelState) :
    Option (String × ChannelState) :=
  match st.buffer origin with
  | v :: rest => some (v, { st with buffer := setBuf st.buffer origin rest })
  | [] =>
    match recvLoop origin st.stream st.buffer with
    | none => none
    | some (p, buf, rest) => some (p, { st with buffer := buf, stream := rest })

/-- The logical point-to-point stream from `origin`: the already-buffered
payloads followed by the pending router frames stamped with that
identity, in arrival order. -/
def streamOf (origin : String) (buf : String → List String)
    (frames : List (String × String)) : List String :=
  buf origin ++ (frames.filter (fun f => f.1 = origin)).map Prod.snd

/-- The logical stream of a channel state (see `streamOf`). -/
def logicalStream (origin : String) (st : ChannelState) : List String :=
  streamOf origin st.buffer st.stream

/-- `n` successive calls of `recv origin`, collecting the returned
payloads; stops early if a call would block forever. -/
def recvN : Nat → String → ChannelState → List String × ChannelState
  | 0, _, st => ([], st)
  | Nat.succ n, origin, st =>
    match recv origin st with
    | none => ([], st)
    | some (v, st') =>
      let r := recvN n origin st'
      (v :: r.1, r.2)

/-! ## Dealer-socket creation (`ClassicalChannel::Impl::connect`)

The overload taking a bool (`simple_backend.hpp`, lines 216-225): a new
dealer socket is created only if no socket is keyed by the endpoint yet;
its ZMTP identity is the bound endpoint when `force_endpoint` is true and
the channel id (`zmq_id`) otherwise. -/
def connectForce (endpoint : String) (force_endpoint : Bool)
    (st : ChannelState) : ChannelState :=
  if (getVal st.sockets endpoint).isSome then st
  else
    let connexion_id := if force_endpoint then st.zmq_endpoint else st.zmq_id
    { st with sockets := st.sockets ++ [(endpoint, connexion_id)] }

/-- `ClassicalChannel::connect(const std::vector<std::string>&, bool)`
(`simple_backend.hpp`, lines 304-309): connect to each endpoint in order. -/
def connectList (endpoints : List String) (force_endpoint : Bool)
    (st : ChannelState) : ChannelState :=
  endpoints.foldl (fun s e => connectForce e force_endpoint s) st

/-! ## QuantumTask (`quantum_task.hpp` / `quantum_task.cpp`)

Instructions are JSON objects; the claims touch only their `name`,
`params` and `qpus` members, so only those are modelled (a missing key is
`none`). Gate parameters are opaque numeric values that the code only
moves around, modelled as rationals. The task `config` is an opaque JSON
subdocument, modelled by its serialised text. -/

structure Instruction where
  name : String
  params : Option (List ℚ)
  qpus : Option (List String)
  deriving DecidableEq

structure QuantumTask where
  circuit : List Instruction
  config : String
  sending_to : List String
  is_dynamic : Bool
  has_cc : Bool
  id : String
  deriving DecidableEq

/-- The default-constructed task (`QuantumTask() = default`): null
circuit and config, empty `sending_to`, both flags false. -/
def QuantumTask.init : QuantumTask :=
  ⟨[], "null", [], false, false, ""⟩

/-- A parsed task JSON message as consumed by
`QuantumTask::update_circuit`; each field is `none` when the
corresponding key is absent from the document. -/
structure TaskMsg where
  instructions : Option (List Instruction)
  config : Option String
  sending_to : Option (List String)
  is_dynamic : Option Bool
  has_cc : Option Bool
  id : Option String
  params : Option (List ℚ)
  deriving DecidableEq

/-- One value of the communications registry
(`communications.json`): both endpoint keys are optional (a QPU publish
writes `communications_endpoint`, the executor path adds
`executor_endpoint`). -/
structure CommEntry where
  executor_endpoint : Option String
  communications_endpoint : Option String
  deriving DecidableEq

/-! ## Parameter rebinding (`QuantumTask::update_params_`,
`quantum_task.cpp` lines 112-153) -/

/-- Modelled from the spec: the arity classification behind
`constants::INSTRUCTIONS_MAP` and the switch in `update_params_`
(`constants.hpp` is not part of the sources at hand). Per the spec,
`rx|ry|rz` consume 1 parameter, `r` consumes 2, `u|cu` consume 3 and
every other gate consumes 0. -/
def gateArity (name : String) : Nat :=
  if name = "rx" ∨ name = "ry" ∨ name = "rz" then 1
  else if name = "r" then 2
  else if name = "u" ∨ name = "cu" then 3
  else 0

/-- Sequential assignment `params[0] = v0, ..., params[k-1] = v_{k-1}`
into a JSON array: the written prefix replaces the old one, any old tail
beyond it is kept (the nlohmann array grows on demand, so a short old
array is simply extended). -/
def setParams (old vals : List ℚ) : List ℚ :=
  vals ++ old.drop vals.length

/-- The sequence of reads `params[counter], params[counter+1], ...,
params[counter+k-1]` from the incoming `std::vector<double>`; an
out-of-bounds read is undefined behaviour in the source
(`std::vector::operator[]`) and is modelled as `none`. -/
def readParams (ps : List ℚ) (counter : Nat) : Nat → Option (List ℚ)
  | 0 => some []
  | Nat.succ k =>
    match ps[counter]? with
    | none => none
    | some v =>
      match readParams ps (counter + 1) k with
      | none => none
      | some vs => some (v :: vs)

/-- One iteration of the `update_params_` loop on one instruction: gates
of arity 0 are skipped; a parametric gate requires its `params` key
(`instruction.at("params")` throws otherwise), reads its arity's worth of
incoming values at the running counter and assigns them positionally. -/
def updateInstruction (ps : List ℚ) (counter : Nat) (inst : Instruction) :
    Except String (Instruction × Nat) :=
  let k := gateArity inst.name
  if k = 0 then Except.ok (inst, counter)
  else
    match inst.params with
    | none => Except.error "key params not found"
    | some old =>
      match readParams ps counter k with
      | none => Except.error "parameter read out of bounds"
      | some vals =>
        Except.ok ({ inst with params := some (setParams old vals) },
          counter + k)

/-- The `for (auto& instruction : circuit)` loop of `update_params_`. -/
def updateParamsGo (ps : List ℚ) :
    List Instruction → Nat → Except String (List Instruction)
  | [], _ => Except.ok []
  | inst :: rest, counter =>
    match updateInstruction ps counter inst with
    | Except.error e => Except.error e
    | Except.ok (inst', counter') =>
      match updateParamsGo ps rest counter' with
      | Except.error e => Except.error e
      | Except.ok rest' => Except.ok (inst' :: rest')

/-- `QuantumTask::update_params_` (`quantum_task.cpp`, lines 112-153):
an empty circuit is a hard error; otherwise the instructions are walked
in order with a running counter into `params`. -/
def update_params_ (t : QuantumTask) (ps : List ℚ) :
    Except String QuantumTask :=
  if t.circuit = [] then
    Except.error "Circuit not sent before updating parameters."
  else
    match updateParamsGo ps t.circuit 0 with
    | Except.error e => Except.error e
    | Except.ok circ' => Except.ok { t with circuit := circ' }

/-- Sum of the parameter arities over a circuit. -/
def requiredParams (circuit : List Instruction) : Nat :=
  (circuit.map (fun i => gateArity i.name)).sum

/-- Declarative positional rewrite (the claim's reading): the parametric
gate at running counter `c` consumes the slice of `ps` of its arity
starting at `c`. -/
def rewriteParamsGo (ps : List ℚ) :
    List Instruction → Nat → List Instruction
  | [], _ => []
  | inst :: rest, c =>
    let k := gateArity inst.name
    (if k = 0 then inst
     else { inst with
       params := some (setParams (inst.params.getD []) ((ps.drop c).take k)) }) ::
      rewriteParamsGo ps rest (c + k)

/-! ## Ingress rewrite (`QuantumTask::update_circuit`,
`quantum_task.cpp` lines 62-101) -/

/-- The executor/communications endpoint that the `has_cc` block
substitutes for an instruction's `qpus` list: `qpus[0]` is looked up in
the communications registry and the whole list is replaced by the
singleton of that peer's `executor_endpoint` if the entry has one, else
its `communications_endpoint`. A missing registry key or endpoint key is
a thrown `json::at` error; `qpus[0]` on an empty list is undefined
behaviour, modelled as an error. -/
def resolveQpus (registry : List (String × CommEntry)) (inst : Instruction) :
    Except String Instruction :=
  match inst.qpus with
  | none => Except.ok inst
  | some qpuid =>
    match qpuid.head? with
    | none => Except.error "qpus[0] out of bounds"
    | some q0 =>
      match getVal registry q0 with
      | none => Except.error "registry key not found"
      | some entry =>
        match entry.executor_endpoint with
        | some e => Except.ok { inst with qpus := some [e] }
        | none =>
          match entry.communications_endpoint with
          | some c => Except.ok { inst with qpus := some [c] }
          | none => Except.error "communications_endpoint not found"

/-- The `sending_to` rewrite: each entry is looked up in the registry
and replaced by that peer's `communications_endpoint`. -/
def resolveTarget (registry : List (String × CommEntry)) (qpuid : String) :
    Except String String :=
  match getVal registry qpuid with
  | none => Except.error "registry key not found"
  | some entry =>
    match entry.communications_endpoint with
    | some c => Except.ok c
    | none => Except.error "communications_endpoint not found"

/-- `QuantumTask::update_circuit` (`quantum_task.cpp`, lines 62-101):
a document with both `instructions` and `config` replaces the task's
fields (with defaults for the optional ones; `id` is mandatory) and, when
`has_cc` is true, resolves `qpus` fields and `sending_to` against the
communications registry; a document with `params` instead re-binds
parameters; anything else is ignored. -/
def update_circuit (registry : List (String × CommEntry))
    (t : QuantumTask) (msg : TaskMsg) : Except String QuantumTask :=
  match msg.instructions, msg.config with
  | some instrs, some cfg =>
    match msg.id with
    | none => Except.error "key id not found"
    | some tid =>
      let s_to := msg.sending_to.getD []
      let dyn := msg.is_dynamic.getD false
      let cc := msg.has_cc.getD false
      if cc then
        match instrs.mapM (resolveQpus registry) with
        | Except.error e => Except.error e
        | Except.ok instrs' =>
          match s_to.mapM (resolveTarget registry) with
          | Except.error e => Except.error e
          | Except.ok s_to' => Except.ok ⟨instrs', cfg, s_to', dyn, cc, tid⟩
      else Except.ok ⟨instrs, cfg, s_to, dyn, cc, tid⟩
  | _, _ =>
    match msg.params with
    | some ps => update_params_ t ps
    | none => Except.ok t

/-- `to_string(const QuantumTask&)` (`quantum_task.cpp`, lines 24-42),
modelled at the level of the document it serialises: an empty circuit
yields the empty string (`none`); otherwise the emitted JSON document has
exactly the keys `id`, `config`, `instructions`, `sending_to` and
`is_dynamic` — in particular no `has_cc` and no `params` key. -/
def to_string (t : QuantumTask) : Option TaskMsg :=
  if t.circuit = [] then none
  else some ⟨some t.circuit, some t.config, some t.sending_to,
    some t.is_dynamic, none, some t.id, none⟩

/-! ## CC backend execute (`AerCCSimulator::execute`,
`aer_cc_simulator.cpp` lines 41-53) -/

/-- The channel interaction of `AerCCSimulator::execute`: it connects to
every peer in the task's `sending_to` with `force_endpoint = false`, then
simulates — with the classical channel exactly when the task is dynamic
(the returned flag records whether the kernel gets the channel). The
numerical kernel itself is opaque. -/
def aerCCExecute (st : ChannelState) (t : QuantumTask) :
    ChannelState × Bool :=
  (connectList t.sending_to false st, t.is_dynamic)

/-! ## Executor round (`AerExecutor::run`, `aer_executor.cpp`
lines 91-123) -/

/-- The per-round collection loop: for each registered peer in order,
block on `recv_info(peer)`; a non-empty payload is appended to the
collected tasks and the peer to the contributors
(`qpus_working.push_back`). `none` models a recv that would block
forever. -/
def executorCollect :
    List String → ChannelState → List String → List String →
    Option (List String × List String × ChannelState)
  | [], st, tasks, working => some (tasks, working, st)
  | q :: rest, st, tasks, working =>
    match recv q st with
    | none => none
    | some (msg, st') =>
      if msg = "" then executorCollect rest st' tasks working
      else executorCollect rest st' (tasks ++ [msg]) (working ++ [q])

/-- One iteration of the executor main loop: collect (starting from the
cleared accumulators), run the aggregate computation once through the
opaque kernel, and send the serialised result to each contributor, in
order. Returns the list of `(payload, target)` sends. -/
def executorRound (ids : List String) (kernel : List String → String)
    (st : ChannelState) :
    Option (List (String × String) × ChannelState) :=
  match executorCollect ids st [] [] with
  | none => none
  | some (tasks, working, st') =>
    let result_str := kernel tasks
    some (working.map (fun q => (result_str, q)), st')

/-- Sequential `recv_info` on each peer, keeping every (possibly empty)
payload paired with its peer. Spec-side helper for stating the round's
behaviour the way the claim describes it. -/
def recvAll : List String → ChannelState →
    Option (List (String × String) × ChannelState)
  | [], st => some ([], st)
  | q :: rest, st =>
    match recv q st with
    | none => none
    | some (msg, st') =>
      match recvAll rest st' with
      | none => none
      | some (ms, st'') => some ((q, msg) :: ms, st'')

/-- The claim's description of one executor round: receive once from
every peer, keep the peers with a non-empty payload as contributors, run
the kernel once on their payloads, and send the identical result string
to exactly the contributors. -/
def executorRoundSpec (ids : List String) (kernel : List String → String)
    (st : ChannelState) :
    Option (List (String × String) × ChannelState) :=
  match recvAll ids st with
  | none => none
  | some (ms, st') =>
    let contrib := ms.filter (fun p => !(p.2 = ""))
    let result_str := kernel (contrib.map Prod.snd)
    some (contrib.map (fun p => (result_str, p.1)), st')

/-! ## QPU compute thread (`QPU::compute_result_`, `qpu.cpp`
lines 56-86) -/

/-- The C++ exceptions distinguished by the compute loop's two catch
blocks: `comm::ServerException` (only ever thrown by
`Server::send_result`, which wraps every send failure into it) and any
other `std::exception` carrying a message. -/
inductive CppExc where
  | serverExc (msg : String)
  | stdExc (msg : String)
  deriving DecidableEq

/-- The error reply document built in the second catch block. -/
def errJson (m : String) : String :=
  "\x7b\"ERROR\":\"" ++ m ++ "\"\x7d"

/-- Processing of one dequeued message by the compute thread. `runTask`
is the combined `update_circuit` + `backend->execute` computation (its
error is the exception escaping them); `sendOk r` tells whether
`server->send_result(r)` succeeds (when it fails it throws
`ServerException`). Returns the replies actually delivered and whether
the loop keeps running: a caught `ServerException` only drops the reply;
any other exception is answered with the `errJson` document — and if
that error send itself throws, the exception escapes both catch blocks
and kills the thread. -/
def compute_step (runTask : Except CppExc String) (sendOk : String → Bool) :
    List String × Bool :=
  match runTask with
  | Except.ok r => if sendOk r then ([r], true) else ([], true)
  | Except.error (CppExc.serverExc _) => ([], true)
  | Except.error (CppExc.stdExc m) =>
    if sendOk (errJson m) then ([errJson m], true) else ([], false)

/-! ## AER counts adapter (`convert_standard_results_Aer`,
`aer_helpers.hpp` lines 67-108) -/

/-- Value of one hex digit character; any other character contributes 0
(the source's if/else-if chain leaves `value = 0`). -/
def hexDigit (c : Char) : Nat :=
  if '0' ≤ c ∧ c ≤ '9' then c.toNat - '0'.toNat
  else if 'a' ≤ c ∧ c ≤ 'f' then 10 + (c.toNat - 'a'.toNat)
  else if 'A' ≤ c ∧ c ≤ 'F' then 10 + (c.toNat - 'A'.toNat)
  else 0

/-- Value of a hex string: the source iterates the characters from the
last (least-significant) one, adding `digit << 4*i`; positionally that is
the usual big-endian reading. -/
def hexVal : List Char → Nat
  | [] => 0
  | c :: rest => hexDigit c * 16 ^ rest.length + hexVal rest

/-- Strip a leading `0x` (`hex_key.rfind("0x", 0) == 0`). -/
def stripHexMark (s : List Char) : List Char :=
  if s.take 2 = ['0', 'x'] then s.drop 2 else s

/-- The characters emitted by the `for (int i = num_clbits - 1; i >= 0;
--i)` loop: bit `n-1` first, down to bit `0`. -/
def binChars (v : Nat) : Nat → List Char
  | 0 => []
  | Nat.succ i => (if v.testBit i then '1' else '0') :: binChars v i

/-- Full key conversion: strip the optional `0x`, read the hex value
into a `std::bitset<100>` (bits at positions 100 and above are dropped),
and print `num_clbits` bits most-significant first. -/
def hexKeyToBin (num_clbits : Nat) (key : String) : String :=
  String.mk (binChars (hexVal (stripHexMark key.data) % 2 ^ 100) num_clbits)

/-- JSON-object member assignment `obj[key] = v`: replace the value of
an existing key, otherwise add the pair. -/
def setKey {α : Type} : List (String × α) → String → α → List (String × α)
  | [], k, v => [(k, v)]
  | (k', v') :: rest, k, v =>
    if k' = k then (k, v) :: rest else (k', v') :: setKey rest k v

/-- The counts-rewriting loop of `convert_standard_results_Aer`: every
entry of the counts object is re-inserted into a fresh object under its
converted key, keeping its count. -/
def convert_standard_results_Aer (num_clbits : Nat)
    (counts : List (String × Nat)) : List (String × Nat) :=
  counts.foldl (fun acc kv => setKey acc (hexKeyToBin num_clbits kv.1) kv.2) []

/-! ## Registry prefix removal (`remove_from_file`, `json.cpp`
lines 138-161) -/

/-- The rebuild loop of `remove_from_file` on the parsed JSON object:
every pair whose key does not start with `rm_key`
(`it.key().rfind(rm_key, 0) != 0`) is inserted into the fresh output
object; pairs whose key starts with `rm_key` are skipped. -/
def remove_from_file (j : List (String × String)) (rm_key : String) :
    List (String × String) :=
  j.foldl
    (fun acc kv =>
      if rm_key.isPrefixOf kv.1 then acc else setKey acc kv.1 kv.2) []

/-! ## Concrete states used by witnesses and counterexamples -/

/-- Channel state for the C1 witness: one payload already buffered for
origin `A`, and two pending frames, the first from `B`. -/
def stW1 : ChannelState where
  zmq_endpoint := "tcp://127.0.0.1:5555"
  zmq_id := "tcp://127.0.0.1:5555"
  sockets := []
  buffer := fun x => if x = "A" then ["a0"] else []
  stream := [("B", "b0"), ("A", "a1")]

/-- Channel state for C4 whose channel id differs from its bound
endpoint (as for a channel constructed with a non-empty id). -/
def stW4 : ChannelState where
  zmq_endpoint := "tcp://127.0.0.1:6000"
  zmq_id := "myid"
  sockets := []
  buffer := fun _ => []
  stream := []

/-- Task for C4: one peer in `sending_to`, dynamic. -/
def tW4 : QuantumTask :=
  ⟨[⟨"measure", none, none⟩], "cfg", ["tcp://peer"], true, true, "t4"⟩

/-- Communications registry for C2: two peers, only
`communications_endpoint` present. -/
def regW2 : List (String × CommEntry) :=
  [("A", ⟨none, some "tcp://epA"⟩), ("B", ⟨none, some "tcp://epB"⟩)]

/-- Task message for the C2 counterexample: one instruction whose `qpus`
names two peers. -/
def msgW2 : TaskMsg :=
  ⟨some [⟨"measure", none, some ["A", "B"]⟩], some "cfg", some [], none,
    some true, some "t1", none⟩

/-- Task message for the C2 witness: singleton `qpus` and one
`sending_to` entry. -/
def msgW2b : TaskMsg :=
  ⟨some [⟨"measure", none, some ["A"]⟩], some "cfg", some ["B"], some true,
    some true, some "t2", none⟩

/-- Task for C3: a single `rx` gate with one (stale) parameter. -/
def tW3 : QuantumTask :=
  ⟨[⟨"rx", some [(0 : ℚ)], none⟩], "c", [], false, false, "t3"⟩

/-- Task for the C9 witness: non-empty circuit, `has_cc` set. -/
def tW9 : QuantumTask :=
  ⟨[⟨"h", none, none⟩], "cfg9", ["B"], true, true, "t9"⟩

/-- The document `to_string` emits for `tW9`. -/
def msgW9 : TaskMsg :=
  ⟨some tW9.circuit, some tW9.config, some tW9.sending_to,
    some tW9.is_dynamic, none, some tW9.id, none⟩

/-- Message with none of the recognised keys (C10 witness). -/
def msgW10 : TaskMsg := ⟨none, none, none, none, none, none, none⟩

/-- Registry object for the C8 witness. -/
def jW8 : List (String × String) :=
  [("job1_11", "e1"), ("job2_22", "e2"), ("job1_33", "e3")]

theorem getVal_append_of_some {α : Type} (k : String) (v : α) :
    ∀ (l l₂ : List (String × α)), getVal l k = some v →
    getVal (l ++ l₂) k = some v := by
  intro l
  induction l with
  | nil => intro l₂ h; simp [getVal] at h
  | cons kv rest ih =>
    intro l₂ h
    obtain ⟨k', v'⟩ := kv
    by_cases hk : k' = k
    · simp only [getVal, if_pos hk] at h
      simp only [List.cons_append, getVal, if_pos hk]
      exact h
    · simp only [getVal, if_neg hk] at h
      simp only [List.cons_append, getVal, if_neg hk]
      exact ih l₂ h

theorem getVal_append_of_none {α : Type} (k : String) :
    ∀ (l l₂ : List (String × α)), getVal l k = none →
    getVal (l ++ l₂) k = getVal l₂ k := by
  intro l
  induction l with
  | nil => intro l₂ _; rfl
  | cons kv rest ih =>
    intro l₂ h
    obtain ⟨k', v'⟩ := kv
    by_cases hk : k' = k
    · simp [getVal, if_pos hk] at h
    · simp only [getVal, if_neg hk] at h
      simp only [List.cons_append, getVal, if_neg hk]
      exact ih l₂ h

theorem connectForce_present (e : String) (f : Bool) (st : ChannelState)
    (h : (getVal st.sockets e).isSome) : connectForce e f st = st := by
  unfold connectForce
  simp [h]

theorem connectForce_absent (e : String) (f : Bool) (st : ChannelState)
    (h : getVal st.sockets e = none) :
    connectForce e f st =
      { st with sockets := st.sockets ++
          [(e, if f then st.zmq_endpoint else st.zmq_id)] } := by
  unfold connectForce
  simp [h]

theorem connectForce_fields (e : String) (f : Bool) (st : ChannelState) :
    (connectForce e f st).zmq_id = st.zmq_id ∧
    (connectForce e f st).zmq_endpoint = st.zmq_endpoint := by
  match hv : getVal st.sockets e with
  | some v => rw [connectForce_present e f st (by simp [hv])]; exact ⟨rfl, rfl⟩
  | none => rw [connectForce_absent e f st hv]; exact ⟨rfl, rfl⟩

theorem connectForce_keeps (e : String) (f : Bool) (st : ChannelState)
    (k : String) (v : String) (h : getVal st.sockets k = some v) :
    getVal (connectForce e f st).sockets k = some v := by
  match hv : getVal st.sockets e with
  | some w => rw [connectForce_present e f st (by simp [hv])]; exact h
  | none =>
    rw [connectForce_absent e f st hv]
    exact getVal_append_of_some k v st.sockets _ h

theorem connectForce_new (e : String) (st : ChannelState)
    (h : getVal st.sockets e = none) :
    getVal (connectForce e false st).sockets e = some st.zmq_id := by
  rw [connectForce_absent e false st h]
  show getVal (st.sockets ++ [(e, st.zmq_id)]) e = some st.zmq_id
  rw [getVal_append_of_none e st.sockets _ h]
  simp [getVal]

theorem connectForce_other (e : String) (f : Bool) (st : ChannelState)
    (k : String) (hk : k ≠ e) :
    getVal (connectForce e f st).sockets k = getVal st.sockets k := by
  match hm : getVal st.sockets e with
  | some w => rw [connectForce_present e f st (by simp [hm])]
  | none =>
    rw [connectForce_absent e f st hm]
    match hv : getVal st.sockets k with
    | some v =>
      exact getVal_append_of_some k v st.sockets _ hv
    | none =>
      show getVal (st.sockets ++ [(e, _)]) k = none
      rw [getVal_append_of_none k st.sockets _ hv]
      have hek : ¬ e = k := fun he => hk he.symm
      simp [getVal, hek]

theorem connectList_zmq_id (es : List String) (f : Bool) :
    ∀ st : ChannelState, (connectList es f st).zmq_id = st.zmq_id := by
  induction es with
  | nil => intro st; rfl
  | cons a rest ih =>
    intro st
    show (connectList rest f (connectForce a f st)).zmq_id = st.zmq_id
    rw [ih (connectForce a f st), (connectForce_fields a f st).1]

theorem connectList_keeps (es : List String) (f : Bool) :
    ∀ (st : ChannelState) (k v : String),
    getVal st.sockets k = some v →
    getVal (connectList es f st).sockets k = some v := by
  induction es with
  | nil => intro st k v h; exact h
  | cons a rest ih =>
    intro st k v h
    show getVal (connectList rest f (connectForce a f st)).sockets k = some v
    exact ih (connectForce a f st) k v (connectForce_keeps a f st k v h)

theorem connectList_adds (es : List String) :
    ∀ (st : ChannelState) (e : String), e ∈ es →
    getVal st.sockets e = none →
    getVal (connectList es false st).sockets e = some st.zmq_id := by
  induction es with
  | nil => intro st e he _; exact absurd he (List.not_mem_nil e)
  | cons a rest ih =>
    intro st e he hnone
    show getVal (connectList rest false (connectForce a false st)).sockets e
      = some st.zmq_id
    by_cases hea : e = a
    · subst hea
      exact connectList_keeps rest false (connectForce e false st) e
        st.zmq_id (connectForce_new e st hnone)
    · have hmem : e ∈ rest := by
        cases List.mem_cons.mp he with
        | inl h => exact absurd h hea
        | inr h => exact h
      have hnone' : getVal (connectForce a false st).sockets e = none := by
        rw [connectForce_other a false st e hea]; exact hnone
      rw [ih (connectForce a false st) e hmem hnone',
        (connectForce_fields a false st).1]

/-- Claim C4 (amended): `AerCCSimulator::execute` connects the classical
channel to every peer in the task's `sending_to` with
`force_endpoint = false` — so each newly created dealer socket's
outbound ZMTP identity is the channel's id (`zmq_id`), not the forced
bound endpoint; since the CC simulator's channel is default-constructed
with an empty id, its `zmq_id` equals the bound endpoint, and the
identity coincides with the bound endpoint in the program. The kernel is
then run with the classical channel exactly when the task's `is_dynamic`
flag is true. -/
theorem aer_cc_execute_spec (st : ChannelState) (t : QuantumTask)
    (e : String) (he : e ∈ t.sending_to)
    (hn : getVal st.sockets e = none) :
    (aerCCExecute st t).2 = t.is_dynamic ∧
    getVal (aerCCExecute st t).1.sockets e = some st.zmq_id ∧
    (st.zmq_id = st.zmq_endpoint →
      getVal (aerCCExecute st t).1.sockets e = some st.zmq_endpoint) := by
  refine ⟨rfl, ?_, ?_⟩
  · exact connectList_adds t.sending_to st e he hn
  · intro hid
    show getVal (connectList t.sending_to false st).sockets e =
      some st.zmq_endpoint
    rw [connectList_adds t.sending_to st e he hn, hid]

/-- Claim C4, counterexample to the original statement: on a channel
whose id differs from its bound endpoint, `execute` keys the new dealer
under the peer endpoint with identity `myid` — the channel's id — while
connecting with `force_endpoint = true` (as the claim asserts) would
have stamped the bound endpoint `tcp://127.0.0.1:6000`; the two
behaviours differ, so `execute` does not call connect with
`force_endpoint = true`. -/
theorem aer_cc_force_cex :
    getVal (aerCCExecute stW4 tW4).1.sockets "tcp://peer" = some "myid" ∧
    getVal (connectList tW4.sending_to true stW4).sockets "tcp://peer" =
      some "tcp://127.0.0.1:6000" ∧
    (("myid" : String) ≠ "tcp://127.0.0.1:6000") := by
  refine ⟨rfl, rfl, by decide⟩

theorem aer_cc_execute_spec_witness :
    (aerCCExecute stW4 tW4).2 = tW4.is_dynamic ∧
    getVal (aerCCExecute stW4 tW4).1.sockets "tcp://peer" =
      some stW4.zmq_id :=
  ⟨(aer_cc_execute_spec stW4 tW4 "tcp://peer" (by decide) rfl).1,
   (aer_cc_execute_spec stW4 tW4 "tcp://peer" (by decide) rfl).2.1⟩

theorem executorCollect_spec :
    ∀ (ids : List String) (st : ChannelState)
      (tasks working : List String),
    executorCollect ids st tasks working =
      (recvAll ids st).map (fun p =>
        (tasks ++ (p.1.filter (fun q => !(q.2 = ""))).map Prod.snd,
         working ++ (p.1.filter (fun q => !(q.2 = ""))).map Prod.fst,
         p.2)) := by
  intro ids
  induction ids with
  | nil => intro st tasks working; simp [executorCollect, recvAll]
  | cons q rest ih =>
    intro st tasks working
    match hr : recv q st with
    | none => simp [executorCollect, recvAll, hr]
    | some (msg, st') =>
      by_cases hmsg : msg = ""
      · subst hmsg
        simp only [executorCollect, recvAll, hr, if_pos rfl]
        rw [ih st' tasks working]
        match hra : recvAll rest st' with
        | none => rfl
        | some (ms, st'') =>
          simp [List.filter_cons]
      · simp only [executorCollect, recvAll, hr, if_neg hmsg]
        rw [ih st' (tasks ++ [msg]) (working ++ [q])]
        match hra : recvAll rest st' with
        | none => rfl
        | some (ms, st'') =>
          simp [List.filter_cons, hmsg]

/-- Claim C5: one iteration of the executor main loop is exactly the
claim's description: it blocks on `recv_info(peer)` for every registered
peer in order, keeps the peers that produced a non-empty payload as the
contributors of the round (collecting their payloads, in order, as the
tasks), runs the kernel once on the collected tasks, and sends the one
resulting string to exactly the contributors — starting every round from
cleared task and contributor accumulators. -/
theorem executor_round_spec (ids : List String)
    (kernel : List String → String) (st : ChannelState) :
    executorRound ids kernel st = executorRoundSpec ids kernel st := by
  unfold executorRound executorRoundSpec
  rw [executorCollect_spec ids st [] []]
  match hra : recvAll ids st with
  | none => rfl
  | some (ms, st') =>
    show some ((((ms.filter (fun q => !(q.2 = ""))).map Prod.fst).map
        (fun q =>
          (kernel ((ms.filter (fun q => !(q.2 = ""))).map Prod.snd), q))),
        st') =
      some ((ms.filter (fun q => !(q.2 = ""))).map
        (fun p =>
          (kernel ((ms.filter (fun q => !(q.2 = ""))).map Prod.snd), p.1)),
        st')
    rw [List.map_map]
    rfl

end cunqa

namespace cunqa

theorem setBuf_self (f : String → List String) (k : String)
    (v : List String) : setBuf f k v k = v := by
  simp [setBuf]

theorem setBuf_other (f : String → List String) (k : String)
    (v : List String) (x : String) (h : x ≠ k) : setBuf f k v x = f x := by
  simp [setBuf, if_neg h]

/-- Moving a pending frame's payload into its identity's buffer leaves
every logical stream unchanged. -/
theorem streamOf_push (j i q : String) (buf : String → List String)
    (fr : List (String × String)) :
    streamOf j buf ((i, q) :: fr) =
      streamOf j (setBuf buf i (buf i ++ [q])) fr := by
  by_cases hji : i = j
  · subst hji
    simp [streamOf, List.filter_cons, setBuf]
  · simp [streamOf, List.filter_cons, hji, setBuf_other buf i _ j
      (fun he => hji he.symm)]

theorem recvLoop_none (origin : String) :
    ∀ (frames : List (String × String)) (buf : String → List String),
    recvLoop origin frames buf = none →
    frames.filter (fun f => f.1 = origin) = [] := by
  intro frames
  induction frames with
  | nil => intro buf _; rfl
  | cons f rest ih =>
    intro buf h
    obtain ⟨i, p⟩ := f
    by_cases hio : i = origin
    · simp [recvLoop, hio] at h
    · simp only [recvLoop, if_neg hio] at h
      simp only [List.filter_cons, decide_eq_true_eq]
      rw [if_neg hio]
      exact ih _ h

theorem recvLoop_some (origin : String) :
    ∀ (frames : List (String × String)) (buf : String → List String)
      (p : String) (buf' : String → List String)
      (rest : List (String × String)),
    buf origin = [] →
    recvLoop origin frames buf = some (p, buf', rest) →
    buf' origin = [] ∧
    streamOf origin buf frames = p :: streamOf origin buf' rest ∧
    ∀ j, j ≠ origin → streamOf j buf frames = streamOf j buf' rest := by
  intro frames
  induction frames with
  | nil => intro buf p buf' rest _ h; simp [recvLoop] at h
  | cons f fr ih =>
    intro buf p buf' rest hempty h
    obtain ⟨i, q⟩ := f
    by_cases hio : i = origin
    · subst hio
      have hred : recvLoop i ((i, q) :: fr) buf = some (q, buf, fr) := by
        simp [recvLoop]
      rw [hred] at h
      simp only [Option.some.injEq, Prod.mk.injEq] at h
      obtain ⟨h1, h2, h3⟩ := h
      subst h1; subst h2; subst h3
      refine ⟨hempty, ?_, ?_⟩
      · simp [streamOf, List.filter_cons, hempty]
      · intro j hj
        simp [streamOf, List.filter_cons, (Ne.symm hj)]
    · simp only [recvLoop, if_neg hio] at h
      have hempty' : setBuf buf i (buf i ++ [q]) origin = [] := by
        rw [setBuf_other buf i _ origin (fun he => hio he.symm)]
        exact hempty
      obtain ⟨s1, s2, s3⟩ :=
        ih (setBuf buf i (buf i ++ [q])) p buf' rest hempty' h
      refine ⟨s1, ?_, ?_⟩
      · rw [streamOf_push origin i q buf fr, s2]
      · intro j hj
        rw [streamOf_push j i q buf fr]
        exact s3 j hj

theorem recv_none (origin : String) (st : ChannelState) :
    recv origin st = none → logicalStream origin st = [] := by
  intro h
  unfold recv at h
  split at h
  · exact absurd h (by simp)
  · rename_i heq
    split at h
    · rename_i hloop
      have := recvLoop_none origin st.stream st.buffer hloop
      simp [logicalStream, streamOf, heq, this]
    · exact absurd h (by simp)

theorem recv_some (origin : String) (st : ChannelState) (v : String)
    (st' : ChannelState) :
    recv origin st = some (v, st') →
    logicalStream origin st = v :: logicalStream origin st' ∧
    ∀ j, j ≠ origin → logicalStream j st = logicalStream j st' := by
  intro h
  unfold recv at h
  split at h
  · rename_i w rest heq
    simp only [Option.some.injEq, Prod.mk.injEq] at h
    obtain ⟨hv, hst⟩ := h
    subst hv; subst hst
    constructor
    · simp [logicalStream, streamOf, heq, setBuf]
    · intro j hj
      simp [logicalStream, streamOf, setBuf, if_neg hj]
  · rename_i heq
    split at h
    · exact absurd h (by simp)
    · rename_i p buf rest hloop
      simp only [Option.some.injEq, Prod.mk.injEq] at h
      obtain ⟨hv, hst⟩ := h
      obtain ⟨s1, s2, s3⟩ :=
        recvLoop_some origin st.stream st.buffer p buf rest heq hloop
      subst hv; subst hst
      exact ⟨s2, fun j hj => s3 j hj⟩

theorem recvN_take (origin : String) (n : Nat) (st : ChannelState) :
    (recvN n origin st).1 = (logicalStream origin st).take n := by
  induction n generalizing st with
  | zero => rfl
  | succ n ih =>
    match hr : recv origin st with
    | none =>
      have hempty := recv_none origin st hr
      simp [recvN, hr, hempty]
    | some (v, st') =>
      obtain ⟨h1, _⟩ := recv_some origin st v st' hr
      simp [recvN, hr, h1, ih st']

theorem recvN_preserve (origin : String) (n : Nat) (st : ChannelState)
    (i : String) (hi : i ≠ origin) :
    logicalStream i (recvN n origin st).2 = logicalStream i st := by
  induction n generalizing st with
  | zero => rfl
  | succ n ih =>
    match hr : recv origin st with
    | none => simp [recvN, hr]
    | some (v, st') =>
      obtain ⟨_, h2⟩ := recv_some origin st v st' hr
      simp only [recvN, hr]
      rw [ih st', h2 i hi]

/-- Claim C1: starting from any channel state (any buffered payloads plus
any finite arrival sequence of two-frame `[identity, payload]` router
messages), `n` repeated calls of `recv_info origin` return exactly the
first `n` elements of the origin's logical stream — the buffered payloads
first, then the arriving payloads whose sender identity equals the origin,
in arrival order; for every other identity `i` the logical stream is
untouched, so a later run of `recv_info i` still returns `i`'s payloads in
arrival order: nothing is dropped or duplicated. -/
theorem recv_info_demux (origin : String) (n : Nat) (st : ChannelState) :
    (recvN n origin st).1 = (logicalStream origin st).take n ∧
    (∀ i, i ≠ origin →
      logicalStream i (recvN n origin st).2 = logicalStream i st) ∧
    (∀ i, i ≠ origin → ∀ m,
      (recvN m i (recvN n origin st).2).1 = (logicalStream i st).take m) :=
  ⟨recvN_take origin n st,
   fun i hi => recvN_preserve origin n st i hi,
   fun i hi m => by
     rw [recvN_take i m (recvN n origin st).2,
       recvN_preserve origin n st i hi]⟩

theorem recv_info_demux_witness :
    (recvN 2 "A" stW1).1 = (logicalStream "A" stW1).take 2 ∧
    logicalStream "B" (recvN 2 "A" stW1).2 = logicalStream "B" stW1 ∧
    (recvN 1 "B" (recvN 2 "A" stW1).2).1 = (logicalStream "B" stW1).take 1 :=
  ⟨(recv_info_demux "A" 2 stW1).1,
   (recv_info_demux "A" 2 stW1).2.1 "B" (by decide),
   (recv_info_demux "A" 2 stW1).2.2 "B" (by decide) 1⟩

/-- Claim C10: a parsed message carrying neither both `instructions` and
`config` nor `params` is silently ignored by `update_circuit`: it
returns without error and leaves every field of the task unchanged (the
compute thread then executes the previously stored circuit). -/
theorem update_circuit_ignores (registry : List (String × CommEntry))
    (t : QuantumTask) (msg : TaskMsg)
    (h1 : ¬(msg.instructions.isSome ∧ msg.config.isSome))
    (h2 : msg.params = none) :
    update_circuit registry t msg = Except.ok t := by
  cases hi : msg.instructions with
  | some instrs =>
    cases hc : msg.config with
    | some cfg => exact absurd ⟨by simp [hi], by simp [hc]⟩ h1
    | none => simp [update_circuit, hi, hc, h2]
  | none =>
    cases hc : msg.config with
    | some cfg => simp [update_circuit, hi, hc, h2]
    | none => simp [update_circuit, hi, hc, h2]

theorem update_circuit_ignores_witness :
    update_circuit [] tW9 msgW10 = Except.ok tW9 :=
  update_circuit_ignores [] tW9 msgW10 (by decide) rfl

/-- Claim C9: `to_string` is lossy exactly on `has_cc`: a task with an
empty circuit serialises to the empty string; a task with a non-empty
circuit serialises to a document with the keys `id`, `config`,
`instructions`, `sending_to`, `is_dynamic` and no `has_cc` (or `params`)
key, so reparsing it (against any registry) reproduces the task on those
five fields with `has_cc` reset to `false`. -/
theorem to_string_round_trip (registry : List (String × CommEntry))
    (t : QuantumTask) :
    (t.circuit = [] → to_string t = none) ∧
    (t.circuit ≠ [] →
      to_string t = some ⟨some t.circuit, some t.config, some t.sending_to,
        some t.is_dynamic, none, some t.id, none⟩ ∧
      update_circuit registry QuantumTask.init
        ⟨some t.circuit, some t.config, some t.sending_to,
          some t.is_dynamic, none, some t.id, none⟩ =
        Except.ok { t with has_cc := false }) := by
  constructor
  · intro h; simp [to_string, h]
  · intro h
    refine ⟨by simp [to_string, h], ?_⟩
    simp [update_circuit]

theorem to_string_round_trip_witness :
    (to_string QuantumTask.init = none) ∧
    (to_string tW9 = some ⟨some tW9.circuit, some tW9.config,
        some tW9.sending_to, some tW9.is_dynamic, none, some tW9.id, none⟩ ∧
      update_circuit [] QuantumTask.init
        ⟨some tW9.circuit, some tW9.config, some tW9.sending_to,
          some tW9.is_dynamic, none, some tW9.id, none⟩ =
        Except.ok { tW9 with has_cc := false }) :=
  ⟨(to_string_round_trip [] QuantumTask.init).1 rfl,
   (to_string_round_trip [] tW9).2 (by decide)⟩

/-- Claim C6: in the compute thread, a `ServerException` raised while
sending a computed result is swallowed — no reply is delivered and the
loop continues; any other exception with message `m` raised by the task
update or the backend execution is answered by sending exactly the
document `{"ERROR":"m"}` in place of a result, and the loop continues. -/
theorem compute_step_errors (runTask : Except CppExc String)
    (sendOk : String → Bool) :
    (∀ r, runTask = Except.ok r → sendOk r = false →
      compute_step runTask sendOk = ([], true)) ∧
    (∀ m, runTask = Except.error (CppExc.stdExc m) →
      sendOk (errJson m) = true →
      compute_step runTask sendOk = ([errJson m], true)) := by
  constructor
  · intro r h hs; subst h; simp [compute_step, hs]
  · intro m h hs; subst h; simp [compute_step, hs]

theorem compute_step_errors_witness :
    compute_step (Except.ok "res") (fun _ => false) = ([], true) ∧
    compute_step (Except.error (CppExc.stdExc "boom")) (fun _ => true) =
      ([errJson "boom"], true) :=
  ⟨(compute_step_errors (Except.ok "res") (fun _ => false)).1 "res" rfl rfl,
   (compute_step_errors (Except.error (CppExc.stdExc "boom"))
     (fun _ => true)).2 "boom" rfl rfl⟩

theorem setKey_fresh {α : Type} (k : String) (v : α) :
    ∀ (l : List (String × α)), k ∉ l.map Prod.fst →
    setKey l k v = l ++ [(k, v)] := by
  intro l
  induction l with
  | nil => intro _; rfl
  | cons kv rest ih =>
    intro h
    obtain ⟨k', v'⟩ := kv
    simp only [List.map_cons, List.mem_cons] at h
    push_neg at h
    have hne : ¬ k' = k := fun he => h.1 he.symm
    simp only [setKey, if_neg hne, List.cons_append, List.cons.injEq,
      true_and]
    exact ih h.2

theorem remove_go (rm : String) :
    ∀ (j acc : List (String × String)),
    (j.map Prod.fst).Nodup →
    (∀ k, k ∈ j.map Prod.fst → k ∉ acc.map Prod.fst) →
    j.foldl
      (fun acc kv =>
        if rm.isPrefixOf kv.1 then acc else setKey acc kv.1 kv.2) acc
      = acc ++ j.filter (fun kv => !(rm.isPrefixOf kv.1)) := by
  intro j
  induction j with
  | nil => intro acc _ _; simp
  | cons kv rest ih =>
    intro acc hnd hdisj
    obtain ⟨k, v⟩ := kv
    simp only [List.map_cons, List.nodup_cons] at hnd
    by_cases hp : rm.isPrefixOf k
    · simp only [List.foldl_cons, if_pos hp]
      rw [ih acc hnd.2 (fun k' hk' => hdisj k' (by simp [hk']))]
      simp [List.filter_cons, hp]
    · simp only [List.foldl_cons, if_neg hp]
      have hkacc : k ∉ acc.map Prod.fst := hdisj k (by simp)
      rw [setKey_fresh k v acc hkacc]
      rw [ih (acc ++ [(k, v)]) hnd.2 ?_]
      · simp [List.filter_cons, hp]
      · intro k' hk'
        simp only [List.map_append, List.mem_append, List.map_cons,
          List.map_nil, List.mem_cons, List.not_mem_nil, or_false, not_or]
        exact ⟨hdisj k' (by simp [hk']),
          fun he => hnd.1 (he ▸ hk')⟩

/-- Claim C8: on a JSON object with distinct keys, `remove_from_file`
retains exactly the key-value pairs whose key does not start with the
given prefix, each with its original value; every pair whose key starts
with the prefix is deleted and nothing else is added, removed or
modified. -/
theorem remove_from_file_spec (j : List (String × String)) (rm : String)
    (hnd : (j.map Prod.fst).Nodup) :
    remove_from_file j rm = j.filter (fun kv => !(rm.isPrefixOf kv.1)) ∧
    ∀ k v, ((k, v) ∈ remove_from_file j rm ↔
      ((k, v) ∈ j ∧ rm.isPrefixOf k = false)) := by
  have h1 : remove_from_file j rm =
      j.filter (fun kv => !(rm.isPrefixOf kv.1)) := by
    unfold remove_from_file
    rw [remove_go rm j [] hnd (by simp)]
    simp
  refine ⟨h1, ?_⟩
  intro k v
  rw [h1, List.mem_filter]
  simp [Bool.not_eq_true']

theorem remove_from_file_spec_witness :
    remove_from_file jW8 "job1" =
      jW8.filter (fun kv => !(("job1").isPrefixOf kv.1)) ∧
    (("job2_22", "e2") ∈ remove_from_file jW8 "job1" ↔
      (("job2_22", "e2") ∈ jW8 ∧ ("job1").isPrefixOf "job2_22" = false)) :=
  ⟨(remove_from_file_spec jW8 "job1" (by decide)).1,
   (remove_from_file_spec jW8 "job1" (by decide)).2 "job2_22" "e2"⟩

theorem binChars_length (v : Nat) : ∀ n, (binChars v n).length = n := by
  intro n
  induction n with
  | zero => rfl
  | succ n ih => simp [binChars, ih]

theorem hexKeyToBin_length (n : Nat) (key : String) :
    (hexKeyToBin n key).length = n := by
  unfold hexKeyToBin
  rw [show ∀ l : List Char, (String.mk l).length = l.length
    from fun l => rfl]
  exact binChars_length _ n

theorem convert_go (n : Nat) :
    ∀ (counts acc : List (String × Nat)),
    (counts.map (fun kv => hexKeyToBin n kv.1)).Nodup →
    (∀ k, k ∈ counts.map (fun kv => hexKeyToBin n kv.1) →
      k ∉ acc.map Prod.fst) →
    counts.foldl
        (fun acc kv => setKey acc (hexKeyToBin n kv.1) kv.2) acc
      = acc ++ counts.map (fun kv => (hexKeyToBin n kv.1, kv.2)) := by
  intro counts
  induction counts with
  | nil => intro acc _ _; simp
  | cons kv rest ih =>
    intro acc hnd hdisj
    obtain ⟨k, v⟩ := kv
    simp only [List.map_cons, List.nodup_cons] at hnd
    simp only [List.foldl_cons]
    have hkacc : hexKeyToBin n k ∉ acc.map Prod.fst := hdisj _ (by simp)
    rw [setKey_fresh (hexKeyToBin n k) v acc hkacc]
    rw [ih (acc ++ [(hexKeyToBin n k, v)]) hnd.2 ?_]
    · simp
    · intro k' hk'
      simp only [List.map_append, List.mem_append, List.map_cons,
        List.map_nil, List.mem_cons, List.not_mem_nil, or_false, not_or]
      exact ⟨hdisj k' (by simp; right; exact (by simpa using hk')),
        fun he => hnd.1 (he ▸ hk')⟩

/-- Claim C7 (amended): when the converted keys of the entries are
pairwise distinct — in particular whenever the hex values of distinct
keys are distinct modulo `2^num_clbits` — `convert_standard_results_Aer`
replaces each key by its fixed-width binary rendering while keeping its
count; in the result every key has length `num_clbits`. Without the
distinctness hypothesis colliding keys overwrite one another (see the
counterexample). -/
theorem convert_counts_spec (n : Nat) (counts : List (String × Nat))
    (hinj : (counts.map (fun kv => hexKeyToBin n kv.1)).Nodup) :
    convert_standard_results_Aer n counts =
      counts.map (fun kv => (hexKeyToBin n kv.1, kv.2)) ∧
    ∀ kv, kv ∈ convert_standard_results_Aer n counts → kv.1.length = n := by
  have h1 : convert_standard_results_Aer n counts =
      counts.map (fun kv => (hexKeyToBin n kv.1, kv.2)) := by
    unfold convert_standard_results_Aer
    rw [convert_go n counts [] hinj (by simp)]
    simp
  refine ⟨h1, ?_⟩
  intro kv hkv
  rw [h1] at hkv
  simp only [List.mem_map] at hkv
  obtain ⟨kv', _, hkv'⟩ := hkv
  rw [← hkv']
  exact hexKeyToBin_length n kv'.1

/-- Claim C7, counterexample to the original statement: with
`num_clbits = 1` the distinct hex keys `0x0` and `0x2` both convert to
the binary key `0`, so the second entry overwrites the first — the pair
`("0", 5)` is gone and the count associated with the replaced key `0x0`
has changed, contradicting that every key is replaced with its count
left unchanged. -/
theorem convert_counts_cex :
    convert_standard_results_Aer 1 [("0x0", 5), ("0x2", 7)] = [("0", 7)] ∧
    List.map (fun kv => (hexKeyToBin 1 kv.1, kv.2))
        [("0x0", 5), ("0x2", 7)] = [("0", 5), ("0", 7)] ∧
    (([("0", 7)] : List (String × Nat)) ≠ [("0", 5), ("0", 7)]) ∧
    ("0", 5) ∉ convert_standard_results_Aer 1 [("0x0", 5), ("0x2", 7)] := by
  refine ⟨?_, ?_, by decide, ?_⟩
  · rfl
  · rfl
  · intro h
    rw [show convert_standard_results_Aer 1 [("0x0", 5), ("0x2", 7)] =
      [("0", 7)] from rfl] at h
    simp at h

theorem convert_counts_spec_witness :
    convert_standard_results_Aer 2 [("0x3", 5)] =
      List.map (fun kv => (hexKeyToBin 2 kv.1, kv.2)) [("0x3", 5)] :=
  (convert_counts_spec 2 [("0x3", 5)] (by decide)).1

theorem readParams_ok (ps : List ℚ) :
    ∀ (k c : Nat), c + k ≤ ps.length →
    readParams ps c k = some ((ps.drop c).take k) := by
  intro k
  induction k with
  | zero => intro c _; simp [readParams]
  | succ k ih =>
    intro c hle
    have hc : c < ps.length := by omega
    simp only [readParams, List.getElem?_eq_getElem hc]
    rw [ih (c + 1) (by omega)]
    rw [List.drop_eq_getElem_cons hc, List.take_succ_cons]

theorem readParams_none (ps : List ℚ) :
    ∀ (k c : Nat), 0 < k → ps.length < c + k →
    readParams ps c k = none := by
  intro k
  induction k with
  | zero => intro c h _; exact absurd h (by omega)
  | succ k ih =>
    intro c _ hlt
    match hv : ps[c]? with
    | none => simp [readParams, hv]
    | some v =>
      have hc : c < ps.length := by
        by_contra hge
        rw [List.getElem?_eq_none (by omega)] at hv
        exact absurd hv (by simp)
      have hk : 0 < k := by omega
      simp only [readParams, hv]
      rw [ih (c + 1) hk (by omega)]

theorem updateInstruction_skip (ps : List ℚ) (c : Nat)
    (inst : Instruction) (hk : gateArity inst.name = 0) :
    updateInstruction ps c inst = Except.ok (inst, c) := by
  unfold updateInstruction
  simp [hk]

theorem updateInstruction_write (ps : List ℚ) (c : Nat)
    (inst : Instruction) (old : List ℚ)
    (hk : gateArity inst.name ≠ 0) (hold : inst.params = some old)
    (hle : c + gateArity inst.name ≤ ps.length) :
    updateInstruction ps c inst =
      Except.ok
        ({ inst with
            params := some (setParams old ((ps.drop c).take (gateArity inst.name))) },
          c + gateArity inst.name) := by
  unfold updateInstruction
  simp [hk, hold, readParams_ok ps (gateArity inst.name) c hle]

theorem updateInstruction_oob (ps : List ℚ) (c : Nat)
    (inst : Instruction) (old : List ℚ)
    (hk : gateArity inst.name ≠ 0) (hold : inst.params = some old)
    (hlt : ps.length < c + gateArity inst.name) :
    updateInstruction ps c inst =
      Except.error "parameter read out of bounds" := by
  unfold updateInstruction
  simp [hk, hold,
    readParams_none ps (gateArity inst.name) c (by omega) hlt]

theorem updateParamsGo_ok (ps : List ℚ) :
    ∀ (instrs : List Instruction) (c : Nat),
    (∀ inst ∈ instrs, gateArity inst.name ≠ 0 → inst.params.isSome) →
    c + requiredParams instrs ≤ ps.length →
    updateParamsGo ps instrs c = Except.ok (rewriteParamsGo ps instrs c) := by
  intro instrs
  induction instrs with
  | nil => intro c _ _; rfl
  | cons inst rest ih =>
    intro c hp hle
    have hreq : requiredParams (inst :: rest) =
        gateArity inst.name + requiredParams rest := by
      simp [requiredParams]
    have hprest : ∀ i ∈ rest, gateArity i.name ≠ 0 → i.params.isSome :=
      fun i hi => hp i (List.mem_cons_of_mem _ hi)
    by_cases hk : gateArity inst.name = 0
    · have ihc := ih c hprest (by omega)
      simp [updateParamsGo, updateInstruction_skip ps c inst hk, ihc,
        rewriteParamsGo, hk]
    · obtain ⟨old, hold⟩ :=
        Option.isSome_iff_exists.mp (hp inst (by simp) hk)
      have ihc := ih (c + gateArity inst.name) hprest (by omega)
      simp [updateParamsGo,
        updateInstruction_write ps c inst old hk hold (by omega), ihc,
        rewriteParamsGo, hk, hold]

theorem updateParamsGo_err (ps : List ℚ) :
    ∀ (instrs : List Instruction) (c : Nat),
    (∀ inst ∈ instrs, gateArity inst.name ≠ 0 → inst.params.isSome) →
    0 < requiredParams instrs →
    ps.length < c + requiredParams instrs →
    ∃ e, updateParamsGo ps instrs c = Except.error e := by
  intro instrs
  induction instrs with
  | nil => intro c _ h _; exact absurd h (by simp [requiredParams])
  | cons inst rest ih =>
    intro c hp hpos hlt
    have hreq : requiredParams (inst :: rest) =
        gateArity inst.name + requiredParams rest := by
      simp [requiredParams]
    have hprest : ∀ i ∈ rest, gateArity i.name ≠ 0 → i.params.isSome :=
      fun i hi => hp i (List.mem_cons_of_mem _ hi)
    by_cases hk : gateArity inst.name = 0
    · rw [hreq, hk] at hpos hlt
      obtain ⟨e, he⟩ := ih c hprest (by omega) (by omega)
      exact ⟨e, by
        simp [updateParamsGo, updateInstruction_skip ps c inst hk, he]⟩
    · obtain ⟨old, hold⟩ :=
        Option.isSome_iff_exists.mp (hp inst (by simp) hk)
      by_cases hoob : ps.length < c + gateArity inst.name
      · exact ⟨"parameter read out of bounds", by
          simp [updateParamsGo,
            updateInstruction_oob ps c inst old hk hold hoob]⟩
      · have hposr : 0 < requiredParams rest := by omega
        obtain ⟨e, he⟩ := ih (c + gateArity inst.name) hprest hposr
          (by omega)
        exact ⟨e, by
          simp [updateParamsGo,
            updateInstruction_write ps c inst old hk hold (by omega), he]⟩

/-- Claim C3 (amended): for a task with a non-empty circuit whose
parametric gates all carry a `params` field, updating with a vector `ps`
succeeds and rewrites the parameters positionally in instruction order
(rx/ry/rz consuming 1, r consuming 2, u/cu consuming 3, others 0)
whenever `len(ps)` is at least the sum of arities — extra values are
silently ignored, so equality is not required; and any successful update
requires at least that many values (fewer makes the source read the
params vector out of bounds — undefined behaviour, modelled as failure). -/
theorem update_params_spec (t : QuantumTask) (ps : List ℚ)
    (hne : t.circuit ≠ [])
    (hp : ∀ inst ∈ t.circuit, gateArity inst.name ≠ 0 → inst.params.isSome) :
    (requiredParams t.circuit ≤ ps.length →
      update_params_ t ps =
        Except.ok { t with circuit := rewriteParamsGo ps t.circuit 0 }) ∧
    (∀ t', update_params_ t ps = Except.ok t' →
      requiredParams t.circuit ≤ ps.length) := by
  constructor
  · intro hle
    unfold update_params_
    rw [if_neg hne, updateParamsGo_ok ps t.circuit 0 hp (by omega)]
  · intro t' hok
    by_cases hle : requiredParams t.circuit ≤ ps.length
    · exact hle
    · exfalso
      obtain ⟨e, he⟩ := updateParamsGo_err ps t.circuit 0 hp
        (by omega) (by omega)
      unfold update_params_ at hok
      rw [if_neg hne, he] at hok
      exact absurd hok (by simp)

/-- Claim C3, counterexample to the original statement: a circuit with a
single `rx` gate has parameter-arity sum 1, yet updating it with a
params vector of length 2 succeeds (the extra value is ignored) instead
of failing the task. -/
theorem update_params_len_cex :
    requiredParams tW3.circuit = 1 ∧
    ((2 : Nat) ≠ 1) ∧
    update_params_ tW3 [(5 : ℚ), 6] =
      Except.ok { tW3 with circuit := [⟨"rx", some [(5 : ℚ)], none⟩] } := by
  refine ⟨rfl, by decide, rfl⟩

theorem update_params_spec_witness :
    update_params_ tW3 [(7 : ℚ)] =
      Except.ok { tW3 with circuit := rewriteParamsGo [(7 : ℚ)] tW3.circuit 0 } :=
  (update_params_spec tW3 [(7 : ℚ)] (by decide) (by decide)).1 (by decide)

theorem mapM_ok_forall {α β : Type} (f : α → Except String β) :
    ∀ (l : List α) (l' : List β), l.mapM f = Except.ok l' →
    List.Forall₂ (fun a b => f a = Except.ok b) l l' := by
  intro l
  induction l with
  | nil =>
    intro l' h
    simp only [List.mapM_nil, pure, Except.pure, Except.ok.injEq] at h
    subst h
    exact List.Forall₂.nil
  | cons a as ih =>
    intro l' h
    simp only [List.mapM_cons] at h
    match hfa : f a with
    | Except.error e => simp [hfa, bind, Except.bind] at h
    | Except.ok b =>
      rw [hfa] at h
      match hrest : as.mapM f with
      | Except.error e =>
        rw [hrest] at h
        simp [bind, Except.bind, pure, Except.pure] at h
      | Except.ok bs =>
        rw [hrest] at h
        simp only [bind, Except.bind, pure, Except.pure,
          Except.ok.injEq] at h
        subst h
        exact List.Forall₂.cons hfa (ih bs hrest)

theorem resolveQpus_char (registry : List (String × CommEntry))
    (inst inst' : Instruction)
    (h : resolveQpus registry inst = Except.ok inst') :
    (inst.qpus = none → inst' = inst) ∧
    (∀ q0 qs, inst.qpus = some (q0 :: qs) →
      ∃ entry, getVal registry q0 = some entry ∧
        ∃ ep, (entry.executor_endpoint = some ep ∨
            (entry.executor_endpoint = none ∧
              entry.communications_endpoint = some ep)) ∧
          inst' = { inst with qpus := some [ep] }) := by
  constructor
  · intro hq
    unfold resolveQpus at h
    rw [hq] at h
    simp only [Except.ok.injEq] at h
    exact h.symm
  · intro q0 qs hq
    unfold resolveQpus at h
    rw [hq] at h
    simp only [List.head?_cons] at h
    match hreg : getVal registry q0 with
    | none => simp only [hreg] at h; exact absurd h (by simp)
    | some entry =>
      simp only [hreg] at h
      refine ⟨entry, rfl, ?_⟩
      match hex : entry.executor_endpoint with
      | some e =>
        simp only [hex, Except.ok.injEq] at h
        exact ⟨e, Or.inl rfl, h.symm⟩
      | none =>
        simp only [hex] at h
        match hcomm : entry.communications_endpoint with
        | some ce =>
          simp only [hcomm, Except.ok.injEq] at h
          exact ⟨ce, Or.inr ⟨rfl, rfl⟩, h.symm⟩
        | none => simp only [hcomm] at h; exact absurd h (by simp)

theorem resolveTarget_char (registry : List (String × CommEntry))
    (q ep : String)
    (h : resolveTarget registry q = Except.ok ep) :
    ∃ entry, getVal registry q = some entry ∧
      entry.communications_endpoint = some ep := by
  unfold resolveTarget at h
  match hreg : getVal registry q with
  | none => simp only [hreg] at h; exact absurd h (by simp)
  | some entry =>
    simp only [hreg] at h
    match hcomm : entry.communications_endpoint with
    | some ce =>
      simp only [hcomm, Except.ok.injEq] at h
      exact ⟨entry, rfl, h ▸ hcomm⟩
    | none => simp only [hcomm] at h; exact absurd h (by simp)

/-- Claim C2 (amended): when `update_circuit` receives a document with
`instructions`, `config`, an `id` and `has_cc` true, and both registry
resolutions succeed, then every instruction carrying a `qpus` list has
that whole list replaced by the singleton endpoint resolved from its
first entry — the named peer's `executor_endpoint` if the registry entry
has one, else its `communications_endpoint` (identifiers after the first
are dropped, see the counterexample) — and every entry of `sending_to`
is replaced by that peer's `communications_endpoint`; afterwards the
`qpus` fields and `sending_to` hold only endpoint strings drawn from the
registry. -/
theorem update_circuit_cc_spec (registry : List (String × CommEntry))
    (t : QuantumTask) (msg : TaskMsg) (instrs : List Instruction)
    (cfg tid : String) (instrs' : List Instruction) (s_to' : List String)
    (hi : msg.instructions = some instrs) (hc : msg.config = some cfg)
    (hid : msg.id = some tid) (hcc : msg.has_cc = some true)
    (hq : instrs.mapM (resolveQpus registry) = Except.ok instrs')
    (hs : (msg.sending_to.getD []).mapM (resolveTarget registry) =
      Except.ok s_to') :
    update_circuit registry t msg =
      Except.ok ⟨instrs', cfg, s_to', msg.is_dynamic.getD false, true, tid⟩ ∧
    List.Forall₂ (fun inst inst' =>
      (inst.qpus = none → inst' = inst) ∧
      (∀ q0 qs, inst.qpus = some (q0 :: qs) →
        ∃ entry, getVal registry q0 = some entry ∧
          ∃ ep, (entry.executor_endpoint = some ep ∨
              (entry.executor_endpoint = none ∧
                entry.communications_endpoint = some ep)) ∧
            inst' = { inst with qpus := some [ep] })) instrs instrs' ∧
    List.Forall₂ (fun q ep => ∃ entry, getVal registry q = some entry ∧
        entry.communications_endpoint = some ep)
      (msg.sending_to.getD []) s_to' := by
  refine ⟨?_, ?_, ?_⟩
  · unfold update_circuit
    rw [hi, hc, hid, hcc]
    simp only [Option.getD_some]
    rw [if_pos trivial, hq, hs]
  · exact (mapM_ok_forall (resolveQpus registry) instrs instrs' hq).imp
      (fun a b hab => resolveQpus_char registry a b hab)
  · exact (mapM_ok_forall (resolveTarget registry) _ s_to' hs).imp
      (fun a b hab => resolveTarget_char registry a b hab)

/-- Claim C2, counterexample to the original statement: an instruction
whose `qpus` list names the two peers `A` and `B` is rewritten to the
singleton `["tcp://epA"]` resolved from `A` alone — `B`'s endpoint
`tcp://epB` does not appear, so it is not the case that each logical id
in the list is replaced by its peer's endpoint. -/
theorem update_circuit_qpus_cex :
    update_circuit regW2 QuantumTask.init msgW2 =
      Except.ok ⟨[⟨"measure", none, some ["tcp://epA"]⟩], "cfg", [],
        false, true, "t1"⟩ ∧
    ((some ["tcp://epA"] : Option (List String)) ≠
      some ["tcp://epA", "tcp://epB"]) := by
  exact ⟨rfl, by decide⟩

theorem update_circuit_cc_spec_witness :
    update_circuit regW2 QuantumTask.init msgW2b =
      Except.ok ⟨[⟨"measure", none, some ["tcp://epA"]⟩], "cfg",
        ["tcp://epB"], (msgW2b.is_dynamic).getD false, true, "t2"⟩ :=
  (update_circuit_cc_spec regW2 QuantumTask.init msgW2b
    [⟨"measure", none, some ["A"]⟩] "cfg" "t2"
    [⟨"measure", none, some ["tcp://epA"]⟩] ["tcp://epB"]
    rfl rfl rfl rfl rfl rfl).1

end cunqa
